import Mathlib

/-!
Verification of the grpcGen repository (grpcGen.go) against its
natural-language specification.  All Go code relevant to the claims is
shallowly embedded below: strings become `List Char`, the Go standard
library string helpers used by the source are re-implemented with the
same semantics, and each function from grpcGen.go is translated
definition by definition.  A Go runtime panic (out-of-range index, failed
type assertion, nil-pointer dereference) is modelled as `none` / a
dedicated `panicked` constructor, since it aborts the whole program
instead of returning an error value.
-/

namespace GrpcGen

/-! ### Embeddings of the Go standard-library string functions used by grpcGen.go -/

/-- strings.Contains(s, sub): substring occurrence test. -/
def goContains : List Char → List Char → Bool
  | [], sub => sub.isEmpty
  | c :: t, sub => sub.isPrefixOf (c :: t) || goContains t sub

/-- strings.HasPrefix(s, p). -/
def hasPfx (s p : List Char) : Bool := p.isPrefixOf s

/-- strings.TrimPrefix(s, p): drops p when it is a prefix, otherwise returns s unchanged. -/
def trimPfx (s p : List Char) : List Char :=
  if p.isPrefixOf s then s.drop p.length else s

/-- unicode.IsSpace restricted to the code points that can occur in the
type strings handled here (ASCII whitespace plus NEL and NBSP). -/
def isGoSpace (c : Char) : Bool :=
  c = (' ') || c = ('\t') || c = ('\n') || c = (Char.ofNat 11) ||
  c = (Char.ofNat 12) || c = ('\r') || c = (Char.ofNat 133) || c = (Char.ofNat 160)

/-- Accumulator-style worker for strings.Fields. -/
def fieldsAux : List Char → List Char → List (List Char)
  | [], acc => if acc.isEmpty then [] else [acc.reverse]
  | c :: cs, acc =>
    if isGoSpace c then
      (if acc.isEmpty then fieldsAux cs [] else acc.reverse :: fieldsAux cs [])
    else fieldsAux cs (c :: acc)

/-- strings.Fields(s): splits around runs of whitespace, no empty pieces. -/
def goFields (s : List Char) : List (List Char) := fieldsAux s []

/-- strings.Split(s, sep) for a one-character separator (grpcGen only splits on a newline). -/
def goSplitChar : List Char → Char → List (List Char)
  | [], _ => [[]]
  | c :: cs, sep =>
    if c = sep then [] :: goSplitChar cs sep
    else
      match goSplitChar cs sep with
      | [] => [[c]]
      | p :: ps => (c :: p) :: ps

/-- strings.Join(lines, sep) for the one-character separator used by grpcGen (a newline). -/
def goJoinLines : List (List Char) → List Char
  | [] => []
  | [l] => l
  | l :: l2 :: rest => l ++ ('\n') :: goJoinLines (l2 :: rest)

/-- strings.Trim(s, " "): the only cutset grpcGen uses is a single space. -/
def goTrimSpaces (s : List Char) : List Char :=
  ((s.dropWhile (fun c => c = (' '))).reverse.dropWhile (fun c => c = (' '))).reverse

/-- strings.Replace(s, old, new, -1): replace every non-overlapping occurrence,
left to right.  grpcGen never calls it with an empty old string; for old = []
this embedding returns s unchanged. -/
def goReplaceAll (s old new : List Char) : List Char :=
  match s with
  | [] => []
  | c :: cs =>
    if old.isPrefixOf (c :: cs) ∧ old ≠ [] then
      new ++ goReplaceAll (cs.drop (old.length - 1)) old new
    else c :: goReplaceAll cs old new
termination_by s.length
decreasing_by
  · simp only [List.length_cons, List.length_drop]
    omega
  · simp only [List.length_cons]
    omega

/-- Decimal digits of a natural number, as fmt prints an int ≥ 0
(the template's add function only produces non-negative ordinals). -/
def natCharsAux : Nat → Nat → List Char
  | 0, _ => []
  | _ + 1, n =>
    if n < 10 then [Nat.digitChar n]
    else natCharsAux (n / 10 + 1) (n / 10) ++ [Nat.digitChar (n % 10)]

def natChars (n : Nat) : List Char := natCharsAux (n + 1) n

/-! ### The marker symbols of grpcGen.go (const block, lines 19-25) -/

def msgSymbol : List Char := ("@grpcGen:Message").data

def srvSymbol : List Char := ("@grpcGen:Service").data

def srvNameSymbol : List Char := ("@grpcGen:SrvName:").data

def srvParamSymbol : List Char := ("*pb.").data

def srvRetSymbol : List Char := ("*pb.").data

/-! ### Data model (grpcGen.go lines 27-57) -/

/-- MsgMember is the gRPC Message type's member (Name / Type fields). -/
structure MsgMember where
  Name : List Char
  Typ : List Char
deriving DecidableEq

/-- Msg stands for every declaration in gRPC Message type. -/
structure Msg where
  Name : List Char
  Members : List MsgMember
deriving DecidableEq

/-- SrvFunc is the gRPC Service type's function member. -/
structure SrvFunc where
  Name : List Char
  In : List Char
  Out : List Char
deriving DecidableEq

/-- Srv stands for every RPC mapping function in gRPC Service type. -/
structure Srv where
  Name : List Char
  Funcs : SrvFunc
deriving DecidableEq

/-- msgs map of main: keys are message names, values the member lists. -/
abbrev MsgMap := List (List Char × List MsgMember)

/-- srvs map of main: keys are service names, values the function lists. -/
abbrev SrvMap := List (List Char × List SrvFunc)

/-! ### correctTypes (grpcGen.go lines 340-389) -/

def tInt : List Char := ("int").data

def tInt32 : List Char := ("int32").data

def tUint : List Char := ("uint").data

def tUint32 : List Char := ("uint32").data

def tByteSlice : List Char := ("[]byte").data

def tBytes : List Char := ("bytes").data

def slicePfx : List Char := ("[]").data

def mapPfx : List Char := ("map").data

def repeatedPfx : List Char := ("repeated ").data

def ifaceLit : List Char := ("interface\x7b\x7d").data

def gvLit : List Char := ("google.protobuf.Value").data

def starLit : List Char := ("*").data

def mapOpen : List Char := ("map<").data

def commaSp : List Char := (", ").data

def gtLit : List Char := (">").data

/-- The rune mapping of the strings.Map call inside correctTypes:
brackets and the indirection star become spaces. -/
def mapRuneFix (c : Char) : Char :=
  if c = ('[') then (' ')
  else if c = (']') then (' ')
  else if c = ('*') then (' ')
  else c

/-- The if/else-if chain of the per-member loop of correctTypes (lines
350-374).  Result none models the Go panic (index out of range on ts[1])
when the map branch finds fewer than two whitespace-separated fields. -/
def typeBranch (s : List Char) : Option (List Char) :=
  if s = tInt then some tInt32
  else if s = tUint then some tUint32
  else if s = tByteSlice then some tBytes
  else if hasPfx s slicePfx then some (repeatedPfx ++ trimPfx s slicePfx)
  else if hasPfx s mapPfx then
    match goFields ((trimPfx s mapPfx).map mapRuneFix) with
    | k :: v :: _ => some (mapOpen ++ k ++ commaSp ++ v ++ gtLit)
    | _ => none
  else some s

/-- The two substitution passes at the end of the loop body (lines 375-385):
interface{} becomes google.protobuf.Value, then every star is removed. -/
def typeSubstPass (u : List Char) : List Char :=
  let u1 := if goContains u ifaceLit then goReplaceAll u ifaceLit gvLit else u
  if goContains u1 starLit then goReplaceAll u1 starLit [] else u1

/-- The whole per-member type rewriting of correctTypes. -/
def translateType (s : List Char) : Option (List Char) :=
  (typeBranch s).map typeSubstPass

/-- One member of the loop: the Type field is rewritten in place. -/
def correctMember (mb : MsgMember) : Option MsgMember :=
  (translateType mb.Typ).map (fun t => ⟨mb.Name, t⟩)

/-- Option-valued map over a list, stopping at the first panic. -/
def goMapOpt (f : α → Option β) : List α → Option (List β)
  | [] => some []
  | a :: as =>
    match f a with
    | none => none
    | some b => (goMapOpt f as).map (fun bs => b :: bs)

/-- correctTypes: rewrites every member type of every message in the map.
The Go function's only error return is for a nil map, which has no
counterpart for this total map representation; a panic inside the loop is
modelled as none. -/
def correctTypes (m : MsgMap) : Option MsgMap :=
  goMapOpt (fun kv => (goMapOpt correctMember kv.2).map (fun ms => (kv.1, ms))) m

/-! ### The map branch on well-shaped inputs -/

/-- A character that the map branch treats as ordinary identifier material:
not a bracket, not a star, not an opening brace, not whitespace. -/
def plainChar (c : Char) : Bool :=
  !(c = ('[') || c = (']') || c = ('*') || c = ('\x7b') || isGoSpace c)

/-! ### Go AST fragments used by fetchMsg and fetchSrv

Only the parts of go/ast that grpcGen reads are modelled: a GenDecl carries
its doc-comment lines (genDecl.Doc.List, the empty list modelling a nil Doc,
which main filters out before calling fetchMsg) and its spec list; a spec is
either a TypeSpec (with an optional name, mirroring the nil check on
typeSpec.Name, and a type expression) or any other spec kind (ImportSpec,
ValueSpec); a type expression is either a struct type with its field list or
any other type, carried as its types.ExprString rendering.  A field entry of
a struct's field list has the list of declared names (s.Names) and one type
string (types.ExprString(s.Type)). -/

/-- One entry of a struct's field list. -/
structure FieldEntry where
  names : List (List Char)
  typ : List Char
deriving DecidableEq

/-- The shape of typeSpec.Type as far as fetchMsg inspects it. -/
inductive TypeExpr where
  | structType (fields : List FieldEntry)
  | otherType (rendering : List Char)
deriving DecidableEq

/-- The shape of a GenDecl spec as far as fetchMsg inspects it. -/
inductive AstSpec where
  | typeSpec (name : Option (List Char)) (ty : TypeExpr)
  | otherSpec
deriving DecidableEq

/-- ast.GenDecl restricted to what fetchMsg reads. -/
structure GenDecl where
  doc : List (List Char)
  specs : List AstSpec
deriving DecidableEq

/-- ast.FuncDecl restricted to what fetchSrv reads: doc comments, the
function name, the types.ExprString of each parameter entry's type, and the
result list, which is none when the Go function has no results
(funcDecl.Type.Results is a nil pointer in that case). -/
structure FuncDecl where
  doc : List (List Char)
  name : List Char
  params : List (List Char)
  results : Option (List (List Char))
deriving DecidableEq

/-- The four ways a fetchMsg call can end: a Go panic, an error return, the
(nil, nil) not-annotated return, or a message. -/
inductive MsgResult where
  | panicked
  | errored (e : List Char)
  | absent
  | found (m : Msg)
deriving DecidableEq

/-- Outcomes of fetchSrv, in the same four-way shape. -/
inductive SrvResult where
  | panicked
  | errored (e : List Char)
  | absent
  | found (s : Srv)
deriving DecidableEq

/-! ### fetchMsg (grpcGen.go lines 139-178) -/

def msgErrNotTypeSpec : List Char := ("fail to convert into ast.TypeSpec").data

def msgErrNoName : List Char := ("typeSpec.Name is nil").data

def errMsgDocNil : List Char := ("genDecl.Doc is nil").data

def errSrvDocNil : List Char := ("funcDecl.Doc is nil").data

/-- The inner name loop of fetchMsg (lines 164-168): memb.Name is
overwritten by every name of the entry, so the last name (or the empty
string when the entry has no names) survives. -/
def memberOfEntry (f : FieldEntry) : MsgMember :=
  ⟨f.names.foldl (fun _ n => n) [], f.typ⟩

/-- The spec loop of fetchMsg (lines 151-171), threading the msg value that
the Go code mutates: a non-TypeSpec spec or a nil name is an error return,
and a TypeSpec whose Type is not a StructType hits the unchecked type
assertion on line 160, a panic. -/
def fetchMsgSpecs : List AstSpec → Msg → MsgResult
  | [], m => .found m
  | .otherSpec :: _, _ => .errored msgErrNotTypeSpec
  | .typeSpec none _ :: _, _ => .errored msgErrNoName
  | .typeSpec (some n) ty :: rest, m =>
    match ty with
    | .otherType _ => .panicked
    | .structType fs => fetchMsgSpecs rest ⟨n, m.Members ++ fs.map memberOfEntry⟩

/-- The comment loop of fetchMsg (lines 145-173): the first comment line
containing the message marker triggers the spec loop, and the found flag
makes the loop exit right afterwards; no marker at all gives the (nil, nil)
return. -/
def fetchMsgComments (specs : List AstSpec) : List (List Char) → MsgResult
  | [] => .absent
  | c :: cs =>
    if goContains c msgSymbol then fetchMsgSpecs specs ⟨[], []⟩
    else fetchMsgComments specs cs

/-- fetchMsg. -/
def fetchMsg (d : GenDecl) : MsgResult :=
  if d.doc.isEmpty then .errored errMsgDocNil
  else fetchMsgComments d.specs d.doc

/-! ### Claim C2 -/

def c2decl : GenDecl :=
  ⟨[(("// @grpcGen:Message").data)],
   [.typeSpec (some (("T").data))
     (.structType [⟨[(("A").data), (("B").data)], (("string").data)⟩])]⟩

/-! ### Claim C3 -/

def c3decl : GenDecl :=
  ⟨[(("// @grpcGen:Message").data)],
   [.typeSpec (some (("Foo").data)) (.otherType (("int").data))]⟩

/-! ### fetchSrv (grpcGen.go lines 180-221) -/

def srvNamePfx1 : List Char := ("// ").data ++ srvNameSymbol

def srvNamePfx2 : List Char := ("//").data ++ srvNameSymbol

/-- The parameter/result scan of fetchSrv (lines 195-206): the loop keeps
overwriting the field on every match, so the last matching entry wins.  The
same srvParamSymbol prefix is used for both loops in the source (the
srvRetSymbol constant has the same value and is not referenced). -/
def selFold : List (List Char) → List Char → List Char
  | [], a => a
  | t :: ts, a =>
    selFold ts (if goContains t srvParamSymbol then trimPfx t srvParamSymbol else a)

/-- Building the SrvFunc inside the service-marker branch (lines 193-206):
dereferencing funcDecl.Type.Results.List when the function has no results
(nil Results pointer) is a panic, modelled as none. -/
def mkSrvFunc (fd : FuncDecl) : Option SrvFunc :=
  match fd.results with
  | none => none
  | some rs => some ⟨fd.name, selFold fd.params [], selFold rs []⟩

/-- The mutable locals of the comment loop of fetchSrv. -/
structure SrvScanState where
  foundSrv : Bool
  foundSrvName : Bool
  name : List Char
  funcs : Option SrvFunc

/-- The comment loop of fetchSrv (lines 187-216): it breaks as soon as both
markers have been seen, fills in srv.Funcs on the service marker, and takes
the first non-empty trimmed value after the group-name marker. -/
def fetchSrvLoop (fd : FuncDecl) : List (List Char) → SrvScanState → Option SrvScanState
  | [], st => some st
  | c :: cs, st =>
    if st.foundSrv && st.foundSrvName then some st
    else if goContains c srvSymbol then
      match mkSrvFunc fd with
      | none => none
      | some f => fetchSrvLoop fd cs ⟨true, st.foundSrvName, st.name, some f⟩
    else if goContains c srvNameSymbol then
      fetchSrvLoop fd cs ⟨st.foundSrv, true,
        (if st.name.isEmpty then
          goTrimSpaces (trimPfx (trimPfx c srvNamePfx1) srvNamePfx2)
        else st.name), st.funcs⟩
    else fetchSrvLoop fd cs st

/-- fetchSrv: both markers present gives a Srv, otherwise the (nil, nil)
return; srv.Funcs is necessarily set when foundSrv holds, the getD default
mirrors the nil pointer that could never be read on that path. -/
def fetchSrv (fd : FuncDecl) : SrvResult :=
  if fd.doc.isEmpty then .errored errSrvDocNil
  else
    match fetchSrvLoop fd fd.doc ⟨false, false, [], none⟩ with
    | none => .panicked
    | some st =>
      if st.foundSrv && st.foundSrvName then .found ⟨st.name, st.funcs.getD ⟨[], [], []⟩⟩
      else .absent

/-- The last parameter/result whose type mentions the cross-boundary prefix,
with the prefix stripped; empty when none matches. -/
def lastSel (ts : List (List Char)) : List Char :=
  match (ts.filter (fun t => goContains t srvParamSymbol)).getLast? with
  | some t => trimPfx t srvParamSymbol
  | none => []

/-- The canonical two-comment doc group carrying both service markers with
group name G. -/
def canonDoc : List (List Char) :=
  [(("// @grpcGen:Service").data), (("// @grpcGen:SrvName: G").data)]

/-! ### Claim C5 -/

def c5decl : FuncDecl :=
  ⟨canonDoc, (("F").data),
   [(("context.Context").data), (("*pb.A").data), (("*pb.B").data)],
   some [(("*pb.Out").data), (("error").data)]⟩

/-! ### Claim C10 -/

def c10decl : FuncDecl := ⟨canonDoc, (("F").data), [(("context.Context").data)], none⟩

/-! ### markMsgAsComment (grpcGen.go lines 236-264) -/

def commentPfx : List Char := ("//").data

def commentPfxSp : List Char := ("// ").data

def braceLit : List Char := ("\x7d").data

def fileNotExistErr : List Char := ("File does not exist").data

/-- The per-line commenting step of the inner loop (lines 248-250). -/
def commLine (l : List Char) : List Char :=
  if hasPfx l commentPfx then l else commentPfxSp ++ l

/-- The two nested loops of markMsgAsComment (lines 245-257) as one
recursion over the line list with a mode flag: false is the outer scan for
marker lines, true is the inner loop that comments lines until one
containing the closing brace (checked on the already-commented line, as in
the source).  In mode true an exhausted list models the inner loop running
past the end of lines, a panic. -/
def markAux : Bool → List (List Char) → Option (List (List Char))
  | false, [] => some []
  | false, l :: ls =>
    if goContains l msgSymbol then (markAux true ls).map (fun r => l :: r)
    else (markAux false ls).map (fun r => l :: r)
  | true, [] => none
  | true, l :: ls =>
    if goContains (commLine l) braceLit then (markAux false ls).map (fun r => commLine l :: r)
    else (markAux true ls).map (fun r => commLine l :: r)

/-- The pure text transform of markMsgAsComment: split on newlines, run the
marking loops, join with newlines. -/
def markContents (s : List Char) : Option (List Char) :=
  (markAux false (goSplitChar s ('\n'))).map goJoinLines

/-- Outcome of a call of markMsgAsComment with its two file-system effects
(the ReadFile result and the WriteFile error, if any) supplied as data. -/
inductive GoResult where
  | panicked
  | errored (e : List Char)
  | ok
deriving DecidableEq

/-- markMsgAsComment: the empty-path check, the read, the transform, the
write.  The source checks the WriteFile error and then returns nil in both
branches (lines 259-263), so a write error still yields the ok outcome. -/
def markMsgAsComment (path : List Char) (readRes : Except (List Char) (List Char))
    (writeErr : Option (List Char)) : GoResult :=
  if path.isEmpty then .errored fileNotExistErr
  else
    match readRes with
    | .error e => .errored e
    | .ok content =>
      match markContents content with
      | none => .panicked
      | some _ =>
        match writeErr with
        | some _ => .ok
        | none => .ok

def c8file : List Char :=
  ("// @grpcGen:Message\ntype A struct \x7b\n\tX int\n\tY string\n\x7d\nfunc f() \x7b\x7d").data

def c8once : List Char :=
  ("// @grpcGen:Message\n// type A struct \x7b\n// \tX int\n// \tY string\n// \x7d\nfunc f() \x7b\x7d").data

/-! ### Claim C6 -/

def c6content : List Char :=
  ("package p\n// @grpcGen:Message\ntype A struct \x7b\n\tX int\n\x7d\n").data

/-! ### createProtoFile / getTemplateText (grpcGen.go lines 266-294, 391-415)

text/template executes the template of getTemplateText against the
OutTemplatData value: literal text is copied verbatim, range over a map
iterates its keys in ascending (byte-wise lexicographic) order, range over a
slice iterates in order with a zero-based index, and the add function shifts
the member index to a 1-based ordinal. -/

/-- Byte-wise lexicographic order on strings, the order Go's text/template
uses when ranging over a map with string keys. -/
def keyLt : List Char → List Char → Bool
  | [], [] => false
  | [], _ :: _ => true
  | _ :: _, [] => false
  | a :: as, b :: bs => if a < b then true else if b < a then false else keyLt as bs

def insertSorted (kv : List Char × α) : List (List Char × α) → List (List Char × α)
  | [] => [kv]
  | h :: t => if keyLt kv.1 h.1 then kv :: h :: t else h :: insertSorted kv t

def sortByKey (l : List (List Char × α)) : List (List Char × α) :=
  l.foldr insertSorted []

/-- One rpc line of the service block. -/
def renderSrvFunc (f : SrvFunc) : List Char :=
  ("\n  rpc ").data ++ f.Name ++ (" (").data ++ f.In ++ (") returns (").data ++
    f.Out ++ (") \x7b\x7d\n  ").data

/-- One service block. -/
def renderService (kv : List Char × List SrvFunc) : List Char :=
  ("\nservice ").data ++ kv.1 ++ (" \x7b\n  ").data ++
    (kv.2.map renderSrvFunc).flatten ++ ("\n\x7d\n").data

/-- One member line of a message block, with its 1-based ordinal. -/
def renderMember (iv : Nat × MsgMember) : List Char :=
  ("\n  ").data ++ iv.2.Typ ++ (" ").data ++ iv.2.Name ++ (" = ").data ++
    natChars (iv.1 + 1) ++ (";\n  ").data

/-- One message block. -/
def renderMessage (kv : List Char × List MsgMember) : List Char :=
  ("\nmessage ").data ++ kv.1 ++ (" \x7b\n  ").data ++
    (kv.2.enum.map renderMember).flatten ++ ("\n\x7d\n").data

/-- The literal template text up to the package-name interpolation. -/
def tmplHeaderA : List Char :=
  ("//\n// Generated by grpcGen -- DO NOT EDIT\n//\nsyntax = \"proto3\";\n\npackage ").data

/-- The literal template text between the package name and the first range. -/
def tmplHeaderB : List Char :=
  ("_pb;\n\nimport \"google/protobuf/struct.proto\";\n").data

/-- The import statement for the well-known-value type. -/
def importLine : List Char := ("import \"google/protobuf/struct.proto\";").data

/-- The full rendered document produced by executing getTemplateText's
template against the package name and the two maps. -/
def createProtoText (pkg : List Char) (msgs : MsgMap) (srvs : SrvMap) : List Char :=
  tmplHeaderA ++ pkg ++ tmplHeaderB ++
    ((sortByKey srvs).map renderService).flatten ++
    ("\n\n").data ++
    ((sortByKey msgs).map renderMessage).flatten

/-! ### The declaration scan of main (grpcGen.go lines 78-110) -/

/-- A top-level declaration as main's type switch sees it. -/
inductive AstDecl where
  | gen (g : GenDecl)
  | func (f : FuncDecl)
  | other
deriving DecidableEq

/-- msgs[msg.Name] = msg.Members (line 85): insert or replace. -/
def mapSet (m : MsgMap) (k : List Char) (v : List MsgMember) : MsgMap :=
  if m.any (fun kv => kv.1 == k) then
    m.map (fun kv => if kv.1 == k then (k, v) else kv)
  else m ++ [(k, v)]

/-- srvs[srv.Name] = append(srvs[srv.Name], srv.Funcs) (line 96). -/
def mapAppend (m : SrvMap) (k : List Char) (f : SrvFunc) : SrvMap :=
  if m.any (fun kv => kv.1 == k) then
    m.map (fun kv => if kv.1 == k then (kv.1, kv.2 ++ [f]) else kv)
  else m ++ [(k, [f])]

/-- One iteration of main's declaration loop: nil doc groups are skipped
before the fetch call, fetch errors are logged and skipped, absent results
are skipped, found results are merged; a panic aborts the program. -/
def scanStep (acc : MsgMap × SrvMap) : AstDecl → Option (MsgMap × SrvMap)
  | .gen g =>
    if g.doc.isEmpty then some acc
    else
      match fetchMsg g with
      | .panicked => none
      | .errored _ => some acc
      | .absent => some acc
      | .found m => some (mapSet acc.1 m.Name m.Members, acc.2)
  | .func f =>
    if f.doc.isEmpty then some acc
    else
      match fetchSrv f with
      | .panicked => none
      | .errored _ => some acc
      | .absent => some acc
      | .found s => some (acc.1, mapAppend acc.2 s.Name s.Funcs)
  | .other => some acc

/-- main's loop over f.Decls. -/
def scanList : MsgMap × SrvMap → List AstDecl → Option (MsgMap × SrvMap)
  | acc, [] => some acc
  | acc, d :: ds =>
    match scanStep acc d with
    | none => none
    | some acc2 => scanList acc2 ds

def scanDecls (ds : List AstDecl) : Option (MsgMap × SrvMap) := scanList ([], []) ds

def noMsgError : List Char := msgSymbol ++ (" symbol cannot be found").data

def noSrvError : List Char := srvSymbol ++ (" symbol cannot be found").data

/-- The two aggregate emptiness checks of main (lines 105-110), as the
fatal error they raise, if any. -/
def checkSymbols (m : MsgMap) (s : SrvMap) : Except (List Char) Unit :=
  if m.isEmpty then .error noMsgError
  else if s.isEmpty then .error noSrvError
  else .ok ()

/-! ### Claim C4 -/

def c4msgs : MsgMap := [((("M").data), [⟨(("x").data), (("int32").data)⟩])]

def c4srvs : SrvMap := [((("G").data), [⟨(("F").data), (("Req").data), (("Rep").data)⟩])]

/-! ## Lemmas and claim theorems -/

/-! ### Basic lemmas about the string primitives -/

theorem isPfxOf_iff (p s : List Char) : p.isPrefixOf s = true ↔ ∃ t, s = p ++ t := by
  induction p generalizing s with
  | nil => simp [List.isPrefixOf]
  | cons a as ih =>
    cases s with
    | nil => simp [List.isPrefixOf]
    | cons b bs =>
      simp only [List.isPrefixOf, Bool.and_eq_true, beq_iff_eq, ih bs, List.cons_append,
        List.cons.injEq]
      constructor
      · rintro ⟨hab, t, ht⟩
        exact ⟨t, hab.symm, ht⟩
      · rintro ⟨t, hab, ht⟩
        exact ⟨hab.symm, t, ht⟩

theorem isPfxOf_append (p s : List Char) : p.isPrefixOf (p ++ s) = true :=
  (isPfxOf_iff p _).mpr ⟨s, rfl⟩

theorem hasPfx_append (p s : List Char) : hasPfx (p ++ s) p = true :=
  isPfxOf_append p s

theorem trimPfx_append (p s : List Char) : trimPfx (p ++ s) p = s := by
  simp [trimPfx, isPfxOf_append, List.drop_left]

theorem goContains_iff (s sub : List Char) :
    goContains s sub = true ↔ ∃ a b, s = a ++ (sub ++ b) := by
  induction s with
  | nil =>
    simp only [goContains, List.isEmpty_iff]
    constructor
    · rintro rfl
      exact ⟨[], [], rfl⟩
    · rintro ⟨a, b, h⟩
      rcases List.append_eq_nil.mp h.symm with ⟨rfl, h2⟩
      exact (List.append_eq_nil.mp h2).1
  | cons c t ih =>
    rw [goContains, Bool.or_eq_true, isPfxOf_iff, ih]
    constructor
    · rintro (⟨r, hr⟩ | ⟨a, b, hab⟩)
      · exact ⟨[], r, by simpa using hr⟩
      · exact ⟨c :: a, b, by simp [hab]⟩
    · rintro ⟨a, b, hab⟩
      cases a with
      | nil => exact Or.inl ⟨b, by simpa using hab⟩
      | cons x xs =>
        rcases List.cons.injEq .. ▸ hab with ⟨rfl, ht⟩
        exact Or.inr ⟨xs, b, by simpa using ht⟩

theorem goContains_spliced (a sub b : List Char) :
    goContains (a ++ (sub ++ b)) sub = true :=
  (goContains_iff _ _).mpr ⟨a, b, rfl⟩

theorem goContains_false_of_char (s sub : List Char) (ch : Char)
    (hc : ch ∈ sub) (h : ch ∉ s) : goContains s sub = false := by
  cases hg : goContains s sub
  · rfl
  · rcases (goContains_iff s sub).mp hg with ⟨a, b, rfl⟩
    exact absurd (by simp [hc]) h

/-! ### Lemmas about goReplaceAll -/

theorem goReplaceAll_nil (old new : List Char) : goReplaceAll [] old new = [] := by
  simp [goReplaceAll]

theorem goReplaceAll_star_filter (s : List Char) :
    goReplaceAll s starLit [] = s.filter (fun c => !(c = ('*'))) := by
  simp only [starLit]
  induction s with
  | nil => simp [goReplaceAll]
  | cons c cs ih =>
    rw [goReplaceAll]
    rcases eq_or_ne c ('*') with h | h
    · subst h
      rw [if_pos (by simp [List.isPrefixOf])]
      simpa using ih
    · rw [if_neg (by simp [List.isPrefixOf, Ne.symm h])]
      simp [h, ih]

theorem goReplaceAll_of_not_contains (s old new : List Char)
    (h : goContains s old = false) :
    goReplaceAll s old new = s := by
  induction s with
  | nil => simp [goReplaceAll]
  | cons c cs ih =>
    rw [goContains, Bool.or_eq_false_iff] at h
    rw [goReplaceAll, if_neg (by simp [h.1])]
    rw [ih h.2]

theorem goReplaceAll_append_of_head_notin (p s old new : List Char) (oh : Char) (ot : List Char)
    (ho : old = oh :: ot) (hp : ∀ c ∈ p, c ≠ oh) :
    goReplaceAll (p ++ s) old new = p ++ goReplaceAll s old new := by
  induction p with
  | nil => simp
  | cons c cp ih =>
    have hc : c ≠ oh := hp c (by simp)
    rw [List.cons_append, goReplaceAll, if_neg]
    · rw [ih (fun x hx => hp x (by simp [hx])), List.cons_append]
    · simp [ho, List.isPrefixOf, Ne.symm hc]

theorem ite_goContains_replace (u old new : List Char) :
    (if goContains u old = true then goReplaceAll u old new else u) =
      goReplaceAll u old new := by
  cases h : goContains u old
  · simp [goReplaceAll_of_not_contains u old new h]
  · simp

/-! ### Explicit character forms of the short literals -/

theorem slicePfx_chars : slicePfx = [('['), (']')] := by decide

theorem mapPfx_chars : mapPfx = [('m'), ('a'), ('p')] := by decide

theorem ifaceLit_head : ifaceLit = ('i') :: ("nterface\x7b\x7d").data := by decide

theorem starLit_chars : starLit = [('*')] := by decide

/-! ### The substitution pass is the unconditional composition of the two replaces -/

theorem typeSubstPass_eq (u : List Char) :
    typeSubstPass u = goReplaceAll (goReplaceAll u ifaceLit gvLit) starLit [] := by
  rw [typeSubstPass]
  simp only [ite_goContains_replace]

theorem typeSubstPass_id (u : List Char)
    (h1 : goContains u ifaceLit = false) (h2 : goContains u starLit = false) :
    typeSubstPass u = u := by
  simp [typeSubstPass, h1, h2]

/-! ### Behaviour of the type-branch chain -/

theorem typeBranch_of_not_map (s : List Char) (h : hasPfx s mapPfx = false) :
    (typeBranch s).isSome = true := by
  unfold typeBranch
  split_ifs with h1 h2 h3 h4 h5 <;> simp_all

theorem typeBranch_map_iff (s : List Char) (h : hasPfx s mapPfx = true) :
    (typeBranch s).isSome = true ↔
      2 ≤ (goFields ((trimPfx s mapPfx).map mapRuneFix)).length := by
  obtain ⟨t, rfl⟩ : ∃ t, s = mapPfx ++ t := (isPfxOf_iff mapPfx s).mp h
  have h1 : mapPfx ++ t ≠ tInt := by
    rw [mapPfx_chars]
    simp [tInt]
  have h2 : mapPfx ++ t ≠ tUint := by
    rw [mapPfx_chars]
    simp [tUint]
  have h3 : mapPfx ++ t ≠ tByteSlice := by
    rw [mapPfx_chars]
    simp [tByteSlice]
  have h4 : hasPfx (mapPfx ++ t) slicePfx = false := by
    rw [mapPfx_chars, slicePfx_chars]
    simp [hasPfx, List.isPrefixOf]
  unfold typeBranch
  rw [if_neg h1, if_neg h2, if_neg h3, if_neg (by simp [h4]), if_pos (by simp [h])]
  rcases hf : goFields ((trimPfx (mapPfx ++ t) mapPfx).map mapRuneFix) with _ | ⟨k, _ | ⟨v, rest⟩⟩ <;>
    simp [hf]

theorem translateType_isSome (s : List Char) :
    (translateType s).isSome = (typeBranch s).isSome := by
  rw [translateType]
  cases typeBranch s <;> rfl

theorem translateType_isSome_of_not_map (s : List Char) (h : hasPfx s mapPfx = false) :
    (translateType s).isSome = true := by
  rw [translateType_isSome]
  exact typeBranch_of_not_map s h

theorem translateType_isSome_map_iff (s : List Char) (h : hasPfx s mapPfx = true) :
    (translateType s).isSome = true ↔
      2 ≤ (goFields ((trimPfx s mapPfx).map mapRuneFix)).length := by
  rw [translateType_isSome]
  exact typeBranch_map_iff s h

theorem translateType_pass (s : List Char)
    (h1 : s ≠ tInt) (h2 : s ≠ tUint) (h3 : s ≠ tByteSlice)
    (h4 : hasPfx s slicePfx = false) (h5 : hasPfx s mapPfx = false)
    (h6 : goContains s ifaceLit = false) (h7 : goContains s starLit = false) :
    translateType s = some s := by
  rw [translateType]
  unfold typeBranch
  rw [if_neg h1, if_neg h2, if_neg h3, if_neg (by simp [h4]), if_neg (by simp [h5])]
  simp [typeSubstPass, h6, h7]

theorem translateType_slice (T : List Char) (hT : T ≠ ("byte").data) :
    translateType (slicePfx ++ T) =
      some (repeatedPfx ++ goReplaceAll (goReplaceAll T ifaceLit gvLit) starLit []) := by
  have h1 : slicePfx ++ T ≠ tInt := by
    rw [slicePfx_chars]
    simp [tInt]
  have h2 : slicePfx ++ T ≠ tUint := by
    rw [slicePfx_chars]
    simp [tUint]
  have h3 : slicePfx ++ T ≠ tByteSlice := by
    rw [slicePfx_chars, show tByteSlice = ('[') :: (']') :: ("byte").data from by decide]
    simpa using hT
  rw [translateType]
  unfold typeBranch
  rw [if_neg h1, if_neg h2, if_neg h3, if_pos (by simp [hasPfx_append])]
  rw [trimPfx_append, Option.map_some', typeSubstPass_eq]
  rw [goReplaceAll_append_of_head_notin repeatedPfx T ifaceLit gvLit ('i')
    (("nterface\x7b\x7d").data) ifaceLit_head (by decide)]
  rw [goReplaceAll_append_of_head_notin repeatedPfx _ starLit [] ('*') [] starLit_chars
    (by decide)]

/-! ### strings.Fields on the shapes produced by the map branch -/

theorem fieldsAux_word (w rest acc : List Char) (hw : ∀ c ∈ w, isGoSpace c = false) :
    fieldsAux (w ++ rest) acc = fieldsAux rest (w.reverse ++ acc) := by
  induction w generalizing acc with
  | nil => simp
  | cons c w' ih =>
    have hc := hw c (by simp)
    simp only [List.cons_append, fieldsAux, hc, Bool.false_eq_true, if_false, List.append_eq]
    rw [ih _ (fun x hx => hw x (by simp [hx]))]
    simp

theorem fieldsAux_space_nil (c : Char) (rest : List Char) (hc : isGoSpace c = true) :
    fieldsAux (c :: rest) [] = fieldsAux rest [] := by
  simp [fieldsAux, hc]

theorem fieldsAux_space_acc (c : Char) (rest acc : List Char)
    (hc : isGoSpace c = true) (ha : acc ≠ []) :
    fieldsAux (c :: rest) acc = acc.reverse :: fieldsAux rest [] := by
  simp [fieldsAux, hc, ha]

theorem fieldsAux_final (acc : List Char) (ha : acc ≠ []) :
    fieldsAux [] acc = [acc.reverse] := by
  simp [fieldsAux, ha]

theorem goFields_single (V : List Char) (hV : V ≠ [])
    (hVs : ∀ c ∈ V, isGoSpace c = false) : goFields V = [V] := by
  have h := fieldsAux_word V [] [] hVs
  simp only [List.append_nil] at h
  rw [goFields, h, fieldsAux_final _ (by simp [hV])]
  simp

theorem goFields_two (K V : List Char) (hK : K ≠ []) (hV : V ≠ [])
    (hKs : ∀ c ∈ K, isGoSpace c = false) (hVs : ∀ c ∈ V, isGoSpace c = false) :
    goFields ((' ') :: (K ++ (' ') :: (' ') :: V)) = [K, V] := by
  rw [goFields, fieldsAux_space_nil _ _ (by decide), fieldsAux_word K _ [] hKs]
  rw [List.append_nil, fieldsAux_space_acc _ _ _ (by decide) (by simp [hK])]
  rw [fieldsAux_space_nil _ _ (by decide), List.reverse_reverse]
  have h := fieldsAux_word V [] [] hVs
  simp only [List.append_nil] at h
  rw [show fieldsAux V [] = goFields V from rfl, goFields_single V hV hVs]

theorem plainChar_props (c : Char) (h : plainChar c = true) :
    mapRuneFix c = c ∧ isGoSpace c = false ∧ c ≠ ('\x7b') ∧ c ≠ ('*') := by
  simp only [plainChar, Bool.not_eq_true', Bool.or_eq_false_iff,
    decide_eq_false_iff_not] at h
  obtain ⟨⟨⟨⟨h1, h2⟩, h3⟩, h4⟩, h5⟩ := h
  exact ⟨by simp [mapRuneFix, h1, h2, h3], h5, h4, h3⟩

theorem mapRuneFix_id (K : List Char) (h : ∀ c ∈ K, plainChar c = true) :
    K.map mapRuneFix = K := by
  induction K with
  | nil => rfl
  | cons c cs ih =>
    rw [List.map_cons, (plainChar_props c (h c (by simp))).1,
      ih (fun x hx => h x (by simp [hx]))]

theorem typeBranch_map_eq (t : List Char) :
    typeBranch (mapPfx ++ t) =
      match goFields (t.map mapRuneFix) with
      | k :: v :: _ => some (mapOpen ++ k ++ commaSp ++ v ++ gtLit)
      | _ => none := by
  have h1 : mapPfx ++ t ≠ tInt := by
    rw [mapPfx_chars]
    simp [tInt]
  have h2 : mapPfx ++ t ≠ tUint := by
    rw [mapPfx_chars]
    simp [tUint]
  have h3 : mapPfx ++ t ≠ tByteSlice := by
    rw [mapPfx_chars]
    simp [tByteSlice]
  have h4 : hasPfx (mapPfx ++ t) slicePfx = false := by
    rw [mapPfx_chars, slicePfx_chars]
    simp [hasPfx, List.isPrefixOf]
  unfold typeBranch
  rw [if_neg h1, if_neg h2, if_neg h3, if_neg (by simp [h4]),
    if_pos (by simp [hasPfx_append]), trimPfx_append]

theorem translateType_mapKV (K V : List Char) (hK : K ≠ []) (hV : V ≠ [])
    (hp : ∀ c ∈ K ++ V, plainChar c = true) :
    translateType (("map[").data ++ K ++ (("]*").data ++ V)) =
      some (mapOpen ++ K ++ commaSp ++ V ++ gtLit) := by
  have hpK : ∀ c ∈ K, plainChar c = true := fun c hc => hp c (by simp [hc])
  have hpV : ∀ c ∈ V, plainChar c = true := fun c hc => hp c (by simp [hc])
  have hshape : ("map[").data ++ K ++ (("]*").data ++ V) =
      mapPfx ++ (('[') :: (K ++ (']') :: ('*') :: V)) := by
    rw [mapPfx_chars, show ("map[").data = [('m'), ('a'), ('p'), ('[')] from by decide,
      show ("]*").data = [(']'), ('*')] from by decide]
    simp
  rw [hshape, translateType, typeBranch_map_eq]
  have hmap : ((('[') :: (K ++ (']') :: ('*') :: V)).map mapRuneFix) =
      (' ') :: (K ++ (' ') :: (' ') :: V) := by
    simp only [List.map_cons, List.map_append,
      show mapRuneFix ('[') = (' ') from rfl, show mapRuneFix (']') = (' ') from rfl,
      show mapRuneFix ('*') = (' ') from rfl, mapRuneFix_id K hpK, mapRuneFix_id V hpV]
  rw [hmap, goFields_two K V hK hV (fun c hc => (plainChar_props c (hpK c hc)).2.1)
    (fun c hc => (plainChar_props c (hpV c hc)).2.1)]
  have hbrace : ('\x7b') ∉ (mapOpen ++ K ++ commaSp ++ V ++ gtLit) := by
    intro hmem
    simp only [List.mem_append] at hmem
    rcases hmem with ((((h | h) | h) | h) | h)
    · exact absurd h (by decide)
    · exact (plainChar_props _ (hpK _ h)).2.2.1 rfl
    · exact absurd h (by decide)
    · exact (plainChar_props _ (hpV _ h)).2.2.1 rfl
    · exact absurd h (by decide)
  have hstar : ('*') ∉ (mapOpen ++ K ++ commaSp ++ V ++ gtLit) := by
    intro hmem
    simp only [List.mem_append] at hmem
    rcases hmem with ((((h | h) | h) | h) | h)
    · exact absurd h (by decide)
    · exact (plainChar_props _ (hpK _ h)).2.2.2 rfl
    · exact absurd h (by decide)
    · exact (plainChar_props _ (hpV _ h)).2.2.2 rfl
    · exact absurd h (by decide)
  have hIf : goContains (mapOpen ++ K ++ commaSp ++ V ++ gtLit) ifaceLit = false :=
    goContains_false_of_char _ _ ('\x7b') (by decide) hbrace
  have hSt : goContains (mapOpen ++ K ++ commaSp ++ V ++ gtLit) starLit = false :=
    goContains_false_of_char _ _ ('*') (by decide) hstar
  rw [Option.map_some', typeSubstPass_id _ hIf hSt]

theorem goMapOpt_isSome (f : α → Option β) (l : List α)
    (h : ∀ a ∈ l, (f a).isSome = true) : (goMapOpt f l).isSome = true := by
  induction l with
  | nil => rfl
  | cons a as ih =>
    rcases Option.isSome_iff_exists.mp (h a (by simp)) with ⟨b, hb⟩
    rw [goMapOpt, hb]
    rcases Option.isSome_iff_exists.mp (ih (fun x hx => h x (by simp [hx]))) with ⟨bs, hbs⟩
    simp [hbs]

/-! ### Claim C1 -/

/-- C1 counterexample: the claim says correctTypes never fails on any input
type string, but on the member type mapFoo (a legal Go identifier starting
with the characters m, a, p) the map branch produces fewer than two fields
and the Go code panics indexing ts[1]; the embedding yields none. -/
theorem c1_translator_total_counterexample :
    correctTypes ([((("M").data), [⟨(("x").data), (("mapFoo").data)⟩])]) = none ∧
    translateType (("mapFoo").data) = none := by
  exact ⟨by decide, by decide⟩

/-- C1 amended: the per-member rewriting is total except on inputs that
start with the characters of the map keyword yet do not split into at least
two fields after bracket/star blanking; a type string matched by no rule
passes through unchanged; correctTypes succeeds whenever no member type
has that malformed-map shape. -/
theorem c1_translator_totality_amended :
    (∀ s : List Char, hasPfx s mapPfx = false → (translateType s).isSome = true) ∧
    (∀ s : List Char, hasPfx s mapPfx = true →
      ((translateType s).isSome = true ↔
        2 ≤ (goFields ((trimPfx s mapPfx).map mapRuneFix)).length)) ∧
    (∀ s : List Char, s ≠ tInt → s ≠ tUint → s ≠ tByteSlice →
      hasPfx s slicePfx = false → hasPfx s mapPfx = false →
      goContains s ifaceLit = false → goContains s starLit = false →
      translateType s = some s) ∧
    (∀ m : MsgMap, (∀ kv ∈ m, ∀ mb ∈ kv.2, hasPfx mb.Typ mapPfx = false) →
      (correctTypes m).isSome = true) := by
  refine ⟨translateType_isSome_of_not_map, translateType_isSome_map_iff,
    translateType_pass, ?_⟩
  intro m hm
  apply goMapOpt_isSome
  intro kv hkv
  rw [Option.isSome_map']
  apply goMapOpt_isSome
  intro mb hmb
  rw [correctMember, Option.isSome_map']
  exact translateType_isSome_of_not_map _ (hm kv hkv mb hmb)

/-- C1 witness: the amended theorem applied at concrete inputs. -/
theorem c1_translator_totality_witness :
    (translateType (("Foo").data)).isSome = true ∧
    translateType (("customType").data) = some (("customType").data) ∧
    ((translateType (("map[string]Bar").data)).isSome = true ↔
      2 ≤ (goFields ((trimPfx (("map[string]Bar").data) mapPfx).map mapRuneFix)).length) ∧
    (correctTypes ([((("M").data), [⟨(("x").data), (("Foo").data)⟩])])).isSome = true :=
  ⟨c1_translator_totality_amended.1 _ (by decide),
   c1_translator_totality_amended.2.2.1 _ (by decide) (by decide) (by decide) (by decide)
     (by decide) (by decide) (by decide),
   c1_translator_totality_amended.2.1 _ (by decide),
   c1_translator_totality_amended.2.2.2 _ (by decide)⟩

/-! ### Claim C7 -/

/-- C7 counterexample: the claim says the element type T of a slice is left
unchanged, so []*Bar would become the text repeated *Bar; the code's later
star-stripping pass inside correctTypes turns it into repeated Bar. -/
theorem c7_slice_star_counterexample :
    translateType (("[]*Bar").data) = some (("repeated Bar").data) ∧
    some ((("repeated Bar").data : List Char)) ≠
      some ((("repeated ").data : List Char) ++ ("*Bar").data) := by
  constructor
  · have h := translateType_slice (("*Bar").data) (by decide)
    rw [show (("[]*Bar").data : List Char) = slicePfx ++ ("*Bar").data from by decide, h,
      goReplaceAll_of_not_contains (("*Bar").data) ifaceLit gvLit (by decide),
      goReplaceAll_star_filter]
    decide
  · decide

/-- C7 amended: int, uint and []byte map exactly as claimed; []T becomes
repeated T except that the two trailing substitution passes still run inside
T (any-value replacement, star stripping); map[K]*V with identifier-shaped
K and V becomes map<K, V>; the first matching rule wins. -/
theorem c7_type_mapping_amended :
    translateType tInt = some tInt32 ∧
    translateType tUint = some tUint32 ∧
    translateType tByteSlice = some tBytes ∧
    (∀ T : List Char, T ≠ ("byte").data →
      translateType (slicePfx ++ T) =
        some (repeatedPfx ++ goReplaceAll (goReplaceAll T ifaceLit gvLit) starLit [])) ∧
    (∀ K V : List Char, K ≠ [] → V ≠ [] →
      (∀ c ∈ K ++ V, plainChar c = true) →
      translateType (("map[").data ++ K ++ (("]*").data ++ V)) =
        some (mapOpen ++ K ++ commaSp ++ V ++ gtLit)) :=
  ⟨by decide, by decide, by decide, translateType_slice, translateType_mapKV⟩

theorem getLastD_cons_irrel (b : List Char) (bs : List (List Char)) (x y : List Char) :
    ((b :: bs).getLast?).getD x = ((b :: bs).getLast?).getD y := by
  induction bs generalizing b with
  | nil => rfl
  | cons c cs ih =>
    rw [List.getLast?_cons_cons]
    exact ih c

theorem foldl_overwrite_getLast (l : List (List Char)) (init : List Char) :
    l.foldl (fun _ n => n) init = l.getLast?.getD init := by
  induction l generalizing init with
  | nil => rfl
  | cons a as ih =>
    rw [List.foldl_cons, ih a]
    cases as with
    | nil => rfl
    | cons b bs =>
      rw [List.getLast?_cons_cons]
      exact getLastD_cons_irrel b bs a init

/-- C2 counterexample: for the field entry A, B string the claim expects two
members (A and B, both of type string); fetchMsg builds a single member per
field entry, keeping only the last name B. -/
theorem c2_multi_name_counterexample :
    fetchMsg c2decl = .found ⟨(("T").data), [⟨(("B").data), (("string").data)⟩]⟩ ∧
    fetchMsg c2decl ≠ .found ⟨(("T").data),
      [⟨(("A").data), (("string").data)⟩, ⟨(("B").data), (("string").data)⟩]⟩ := by
  exact ⟨by decide, by decide⟩

/-- C2 amended: for a record-marked struct declaration, fetchMsg produces
exactly one member per field entry (not per field name), in source order;
the member carries the entry's shared type and the last of the entry's
names (or the empty name for an embedded field without names). -/
theorem c2_members_per_entry_amended (c n : List Char) (fs : List FieldEntry)
    (hc : goContains c msgSymbol = true) :
    fetchMsg ⟨[c], [.typeSpec (some n) (.structType fs)]⟩ =
      .found ⟨n, fs.map (fun f => ⟨f.names.getLast?.getD [], f.typ⟩)⟩ := by
  rw [fetchMsg, if_neg (by simp), fetchMsgComments, if_pos hc, fetchMsgSpecs]
  rw [fetchMsgSpecs]
  congr 1
  simp only [List.nil_append]
  congr 1
  apply List.map_congr_left
  intro f _
  rw [memberOfEntry, foldl_overwrite_getLast]

/-- C2 witness: the amended theorem at a concrete declaration. -/
theorem c2_members_per_entry_witness :
    fetchMsg ⟨[(("// @grpcGen:Message").data)],
        [.typeSpec (some (("R").data))
          (.structType [⟨[(("X").data)], (("int32").data)⟩,
                        ⟨[(("A").data), (("B").data)], (("string").data)⟩])]⟩ =
      .found ⟨(("R").data),
        [⟨(("X").data), (("int32").data)⟩, ⟨(("B").data), (("string").data)⟩]⟩ := by
  rw [c2_members_per_entry_amended _ _ _ (by decide)]
  decide

/-- C3: a message-marked declaration whose type is not a struct type (here
type Foo int) hits the unchecked type assertion typeSpec.Type.(*ast.StructType)
on grpcGen.go line 160 and panics, aborting the whole run, instead of the
local error return plus log-and-continue that the claim (and the adjacent
checked assertions) describe. -/
theorem c3_non_struct_panics :
    fetchMsg c3decl = .panicked := by
  decide

/-- C7 witness: the amended theorem applied at the spec's own examples. -/
theorem c7_type_mapping_witness :
    translateType (("[]string").data) = some (("repeated string").data) ∧
    translateType (("map[string]*Bar").data) = some (("map<string, Bar>").data) := by
  constructor
  · have h := c7_type_mapping_amended.2.2.2.1 (("string").data) (by decide)
    rw [show (("[]string").data : List Char) = slicePfx ++ ("string").data from by decide, h,
      goReplaceAll_of_not_contains (("string").data) ifaceLit gvLit (by decide),
      goReplaceAll_star_filter]
    decide
  · have h := c7_type_mapping_amended.2.2.2.2 (("string").data) (("Bar").data)
      (by decide) (by decide) (by decide)
    rw [show (("map[string]*Bar").data : List Char) =
      ("map[").data ++ ("string").data ++ ((("]*").data) ++ ("Bar").data) from by decide, h]
    decide

theorem getLast?_cons' (a : List Char) (l : List (List Char)) :
    (a :: l).getLast? = some ((l.getLast?).getD a) := by
  induction l generalizing a with
  | nil => rfl
  | cons b bs ih =>
    rw [List.getLast?_cons_cons, ih b]
    rfl

theorem selFold_eq_lastSel (ts : List (List Char)) (init : List Char) :
    selFold ts init =
      match (ts.filter (fun t => goContains t srvParamSymbol)).getLast? with
      | some t => trimPfx t srvParamSymbol
      | none => init := by
  induction ts generalizing init with
  | nil => rfl
  | cons t ts ih =>
    rw [selFold]
    by_cases h : goContains t srvParamSymbol = true
    · rw [if_pos h, ih, List.filter_cons, if_pos h, getLast?_cons']
      cases hl : (ts.filter (fun t => goContains t srvParamSymbol)).getLast? <;> simp [hl]
    · rw [if_neg h, ih, List.filter_cons, if_neg h]

theorem selFold_nil_eq (ts : List (List Char)) : selFold ts [] = lastSel ts := by
  rw [selFold_eq_lastSel, lastSel]

theorem fetchSrv_canonical (nm : List Char) (ps rs : List (List Char)) :
    fetchSrv ⟨canonDoc, nm, ps, some rs⟩ =
      .found ⟨(("G").data), ⟨nm, selFold ps [], selFold rs []⟩⟩ := by
  rfl

/-- C5 counterexample: with the two matching parameters *pb.A and *pb.B the
claim says the first match A becomes In; fetchSrv keeps overwriting and ends
with the last match B. -/
theorem c5_first_match_counterexample :
    fetchSrv c5decl =
      .found ⟨(("G").data), ⟨(("F").data), (("B").data), (("Out").data)⟩⟩ ∧
    (("B").data : List Char) ≠ (("A").data) := by
  exact ⟨by decide, by decide⟩

/-- C5 amended: when several parameters (or results) carry the
cross-boundary prefix, the LAST matching parameter becomes In and the LAST
matching result becomes Out, each with the prefix stripped. -/
theorem c5_last_match_amended (nm : List Char) (ps rs : List (List Char)) (t : List Char)
    (_h2 : 2 ≤ (ps.filter (fun x => goContains x srvParamSymbol)).length)
    (hlast : (ps.filter (fun x => goContains x srvParamSymbol)).getLast? = some t) :
    fetchSrv ⟨canonDoc, nm, ps, some rs⟩ =
      .found ⟨(("G").data), ⟨nm, trimPfx t srvParamSymbol, lastSel rs⟩⟩ := by
  rw [fetchSrv_canonical nm ps rs, selFold_eq_lastSel ps [], hlast, selFold_nil_eq rs]

/-- C5 witness: the amended theorem at a concrete declaration with two
matching parameters. -/
theorem c5_last_match_witness :
    fetchSrv ⟨canonDoc, (("F").data),
        [(("context.Context").data), (("*pb.A").data), (("*pb.B").data)],
        some [(("*pb.Out").data)]⟩ =
      .found ⟨(("G").data), ⟨(("F").data),
        trimPfx (("*pb.B").data) srvParamSymbol, lastSel [(("*pb.Out").data)]⟩⟩ :=
  c5_last_match_amended (("F").data)
    [(("context.Context").data), (("*pb.A").data), (("*pb.B").data)]
    [(("*pb.Out").data)] (("*pb.B").data) (by decide) (by decide)

/-- C10 counterexample: a service-marked function declaration with no result
list at all (funcDecl.Type.Results is nil) has in particular no matching
result; instead of returning a descriptor, fetchSrv dereferences the nil
Results pointer and panics. -/
theorem c10_nil_results_counterexample :
    fetchSrv c10decl = .panicked := by
  decide

/-- C10 amended: for a service-marked declaration that does have a result
list, parameters and results without the prefix are ignored and zero or
multiple matches degrade gracefully (empty or last-match-overwritten In and
Out); but a marked declaration with no result list at all panics. -/
theorem c10_graceful_amended (nm : List Char) (ps rs : List (List Char)) :
    fetchSrv ⟨canonDoc, nm, ps, some rs⟩ =
      .found ⟨(("G").data), ⟨nm, lastSel ps, lastSel rs⟩⟩ ∧
    ((∀ x ∈ ps, goContains x srvParamSymbol = false) → lastSel ps = []) ∧
    ((∀ x ∈ rs, goContains x srvParamSymbol = false) → lastSel rs = []) := by
  refine ⟨by rw [fetchSrv_canonical, selFold_nil_eq, selFold_nil_eq], ?_, ?_⟩
  · intro h
    rw [lastSel, List.filter_eq_nil_iff.mpr (by simpa using h)]
    rfl
  · intro h
    rw [lastSel, List.filter_eq_nil_iff.mpr (by simpa using h)]
    rfl

/-- C10 witness: the amended theorem at a declaration with one non-matching
parameter and an empty result list. -/
theorem c10_graceful_witness :
    fetchSrv ⟨canonDoc, (("F").data), [(("int").data)], some []⟩ =
      .found ⟨(("G").data), ⟨(("F").data), lastSel [(("int").data)], lastSel []⟩⟩ ∧
    lastSel [(("int").data)] = [] :=
  ⟨(c10_graceful_amended (("F").data) [(("int").data)] []).1,
   (c10_graceful_amended (("F").data) [(("int").data)] []).2.1 (by decide)⟩

/-! ### Lemmas for the idempotence of the transform -/

theorem commLine_comm (l : List Char) : commLine (commLine l) = commLine l := by
  by_cases h : hasPfx l commentPfx = true
  · have e : commLine l = l := by rw [commLine, if_pos h]
    rw [e, e]
  · have e : commLine l = commentPfxSp ++ l := by rw [commLine, if_neg h]
    have hp : hasPfx (commentPfxSp ++ l) commentPfx = true := by
      rw [show commentPfxSp = [('/'), ('/'), (' ')] from by decide,
        show commentPfx = [('/'), ('/')] from by decide]
      simp [hasPfx, List.isPrefixOf]
    rw [e, commLine, if_pos hp]

theorem markAux_idem : ∀ (ls : List (List Char)) (m : Bool) (out : List (List Char)),
    markAux m ls = some out → markAux m out = some out := by
  intro ls
  induction ls with
  | nil =>
    intro m out h
    cases m
    · simp only [markAux, Option.some.injEq] at h
      subst h
      rfl
    · simp [markAux] at h
  | cons l ls ih =>
    intro m out h
    cases m
    · rw [markAux] at h
      by_cases hc : goContains l msgSymbol = true
      · rw [if_pos hc] at h
        rcases Option.map_eq_some'.mp h with ⟨r, hr, rfl⟩
        rw [markAux, if_pos hc, ih true r hr]
        rfl
      · rw [if_neg hc] at h
        rcases Option.map_eq_some'.mp h with ⟨r, hr, rfl⟩
        rw [markAux, if_neg hc, ih false r hr]
        rfl
    · rw [markAux] at h
      by_cases hb : goContains (commLine l) braceLit = true
      · rw [if_pos hb] at h
        rcases Option.map_eq_some'.mp h with ⟨r, hr, rfl⟩
        rw [markAux, commLine_comm, if_pos hb, ih false r hr]
        rfl
      · rw [if_neg hb] at h
        rcases Option.map_eq_some'.mp h with ⟨r, hr, rfl⟩
        rw [markAux, commLine_comm, if_neg hb, ih true r hr]
        rfl

theorem markAux_length : ∀ (ls : List (List Char)) (m : Bool) (out : List (List Char)),
    markAux m ls = some out → out.length = ls.length := by
  intro ls
  induction ls with
  | nil =>
    intro m out h
    cases m
    · simp only [markAux, Option.some.injEq] at h
      subst h
      rfl
    · simp [markAux] at h
  | cons l ls ih =>
    intro m out h
    cases m <;> rw [markAux] at h <;> split_ifs at h <;>
      rcases Option.map_eq_some'.mp h with ⟨r, hr, rfl⟩ <;>
      simp [ih _ r hr]

theorem newline_notin_commLine (l : List Char) (h : ('\n') ∉ l) : ('\n') ∉ commLine l := by
  rw [commLine]
  by_cases hp : hasPfx l commentPfx = true
  · rw [if_pos hp]
    exact h
  · rw [if_neg hp]
    intro hm
    rcases List.mem_append.mp hm with hm | hm
    · exact absurd hm (by decide)
    · exact h hm

theorem markAux_no_newline : ∀ (ls : List (List Char)) (m : Bool) (out : List (List Char)),
    markAux m ls = some out → (∀ l ∈ ls, ('\n') ∉ l) → ∀ l ∈ out, ('\n') ∉ l := by
  intro ls
  induction ls with
  | nil =>
    intro m out h _
    cases m
    · simp only [markAux, Option.some.injEq] at h
      subst h
      simp
    · simp [markAux] at h
  | cons l ls ih =>
    intro m out h hin
    cases m <;> rw [markAux] at h <;> split_ifs at h <;>
      rcases Option.map_eq_some'.mp h with ⟨r, hr, rfl⟩ <;>
      intro x hx <;> rcases List.mem_cons.mp hx with rfl | hx
    · exact hin _ (by simp)
    · exact ih _ r hr (fun y hy => hin y (by simp [hy])) x hx
    · exact hin _ (by simp)
    · exact ih _ r hr (fun y hy => hin y (by simp [hy])) x hx
    · exact newline_notin_commLine l (hin l (by simp))
    · exact ih _ r hr (fun y hy => hin y (by simp [hy])) x hx
    · exact newline_notin_commLine l (hin l (by simp))
    · exact ih _ r hr (fun y hy => hin y (by simp [hy])) x hx

theorem goSplitChar_ne_nil (s : List Char) (sep : Char) : goSplitChar s sep ≠ [] := by
  cases s with
  | nil => simp [goSplitChar]
  | cons c cs =>
    rw [goSplitChar]
    split_ifs
    · simp
    · cases goSplitChar cs sep <;> simp

theorem goSplitChar_no_sep : ∀ (s : List Char) (sep : Char),
    ∀ p ∈ goSplitChar s sep, sep ∉ p := by
  intro s
  induction s with
  | nil =>
    intro sep p hp
    simp only [goSplitChar, List.mem_singleton] at hp
    subst hp
    simp
  | cons c cs ih =>
    intro sep p hp
    rw [goSplitChar] at hp
    by_cases hc : c = sep
    · rw [if_pos hc] at hp
      rcases List.mem_cons.mp hp with rfl | hp
      · simp
      · exact ih sep p hp
    · rw [if_neg hc] at hp
      rcases hsp : goSplitChar cs sep with _ | ⟨q, qs⟩
      · exact absurd hsp (goSplitChar_ne_nil cs sep)
      · rw [hsp] at hp
        rcases List.mem_cons.mp hp with rfl | hp
        · intro hm
          rcases List.mem_cons.mp hm with rfl | hm
          · exact hc rfl
          · exact ih sep q (by simp [hsp]) hm
        · exact ih sep p (by simp [hsp, hp])

theorem goSplitChar_of_no_sep (p : List Char) (sep : Char) (h : sep ∉ p) :
    goSplitChar p sep = [p] := by
  induction p with
  | nil => rfl
  | cons c cs ih =>
    rw [goSplitChar, if_neg (fun e => h (by simp [e]))]
    rw [ih (fun hm => h (by simp [hm]))]

theorem goSplitChar_append_sep (p r : List Char) (sep : Char) (h : sep ∉ p) :
    goSplitChar (p ++ sep :: r) sep = p :: goSplitChar r sep := by
  induction p with
  | nil => simp [goSplitChar]
  | cons c cs ih =>
    rw [List.cons_append, goSplitChar, if_neg (fun e => h (by simp [e]))]
    rw [ih (fun hm => h (by simp [hm]))]

theorem goSplit_join : ∀ (ls : List (List Char)), ls ≠ [] →
    (∀ p ∈ ls, ('\n') ∉ p) → goSplitChar (goJoinLines ls) ('\n') = ls := by
  intro ls
  induction ls with
  | nil => intro h; exact absurd rfl h
  | cons l ls ih =>
    intro _ hin
    cases ls with
    | nil =>
      rw [goJoinLines, goSplitChar_of_no_sep l _ (hin l (by simp))]
    | cons l2 rest =>
      rw [goJoinLines, goSplitChar_append_sep l _ _ (hin l (by simp))]
      rw [ih (by simp) (fun p hp => hin p (by simp [hp]))]

/-! ### Claim C8 -/

/-- C8: the rewrite transform is idempotent whenever it succeeds: lines
already starting with the comment prefix are not prefixed again, the marker
and closing-brace structure of the lines is unchanged, so a second pass
changes nothing. -/
theorem c8_idempotent (s t : List Char) (h : markContents s = some t) :
    markContents t = some t := by
  rw [markContents] at h
  rcases Option.map_eq_some'.mp h with ⟨out, hout, rfl⟩
  have hnn : ∀ l ∈ out, ('\n') ∉ l :=
    markAux_no_newline _ false out hout (goSplitChar_no_sep s ('\n'))
  have hne : out ≠ [] := by
    intro he
    have hl := markAux_length _ false out hout
    rw [he] at hl
    exact goSplitChar_ne_nil s ('\n') (List.length_eq_zero.mp hl.symm)
  rw [markContents, goSplit_join out hne hnn, markAux_idem _ false out hout]
  rfl

/-- C8 witness: a concrete marked source file, transformed once and twice. -/
theorem c8_idempotent_witness :
    markContents c8file = some c8once ∧ markContents c8once = some c8once :=
  ⟨by decide, c8_idempotent c8file c8once (by decide)⟩

/-- C6: when WriteFile fails, markMsgAsComment still returns nil: the error
check on grpcGen.go lines 260-262 returns nil instead of err, so the write
failure is swallowed and the pipeline reports success, contradicting the
claim that every failure is surfaced. -/
theorem c6_write_error_swallowed :
    markMsgAsComment (("in.go").data) (.ok c6content)
      (some (("permission denied").data)) = .ok ∧
    markMsgAsComment (("in.go").data) (.ok c6content) none = .ok := by
  exact ⟨by decide, by decide⟩

/-- C4 counterexample: a model in which no member type mentions
google.protobuf.Value still renders with the import line, because the
template of getTemplateText carries it as unconditional literal text; the
claimed only-if direction fails. -/
theorem c4_import_always_counterexample :
    goContains (createProtoText (("pkg").data) c4msgs c4srvs) importLine = true ∧
    goContains (("int32").data) gvLit = false := by
  exact ⟨by decide, by decide⟩

/-- C4 amended: the rendered document always contains the line importing
the well-known-value type, whether or not the any-value substitution was
applied anywhere in the model. -/
theorem c4_import_unconditional_amended (pkg : List Char) (msgs : MsgMap) (srvs : SrvMap) :
    goContains (createProtoText pkg msgs srvs) importLine = true := by
  have hB : tmplHeaderB = ("_pb;\n\n").data ++ (importLine ++ ("\n").data) := by decide
  rw [createProtoText, hB]
  exact (goContains_iff _ _).mpr ⟨tmplHeaderA ++ pkg ++ ("_pb;\n\n").data,
    ("\n").data ++ (((sortByKey srvs).map renderService).flatten ++ (("\n\n").data ++
      ((sortByKey msgs).map renderMessage).flatten)), by simp⟩

/-! ### Claim C9 -/

/-- C9: after the scan, an empty record map is its own fatal condition, an
empty service map is a different fatal condition, both distinct; a nonempty
pair passes; and declarations whose extraction returns an error are skipped
(logged) by the scan step without failing the run. -/
theorem c9_empty_collections_fatal :
    (∀ s : SrvMap, checkSymbols [] s = .error noMsgError) ∧
    (∀ (m : MsgMap) (s : SrvMap), m ≠ [] → s = [] → checkSymbols m s = .error noSrvError) ∧
    noMsgError ≠ noSrvError ∧
    (∀ (m : MsgMap) (s : SrvMap), m ≠ [] → s ≠ [] → checkSymbols m s = .ok ()) ∧
    (∀ (acc : MsgMap × SrvMap) (g : GenDecl) (e : List Char),
      fetchMsg g = .errored e → scanStep acc (.gen g) = some acc) ∧
    (∀ (acc : MsgMap × SrvMap) (fd : FuncDecl) (e : List Char),
      fetchSrv fd = .errored e → scanStep acc (.func fd) = some acc) := by
  refine ⟨fun s => rfl, ?_, by decide, ?_, ?_, ?_⟩
  · intro m s hm hs
    subst hs
    cases m with
    | nil => exact absurd rfl hm
    | cons kv m' => rfl
  · intro m s hm hs
    cases m with
    | nil => exact absurd rfl hm
    | cons kv m' =>
      cases s with
      | nil => exact absurd rfl hs
      | cons kv2 s' => rfl
  · intro acc g e h
    by_cases hd : g.doc.isEmpty = true
    · simp only [scanStep, hd, if_true]
    · simp [scanStep, hd, h]
  · intro acc fd e h
    by_cases hd : fd.doc.isEmpty = true
    · simp only [scanStep, hd, if_true]
    · simp [scanStep, hd, h]

/-- C9 witness: the conjuncts of the theorem applied to concrete maps and a
concrete declaration whose extraction errors. -/
theorem c9_empty_collections_witness :
    checkSymbols [] [] = .error noMsgError ∧
    checkSymbols [((("M").data), [])] [] = .error noSrvError ∧
    checkSymbols [((("M").data), [])] [((("G").data), [])] = .ok () ∧
    scanStep ([], []) (.gen ⟨[(("// @grpcGen:Message").data)], [.otherSpec]⟩) =
      some ([], []) :=
  ⟨c9_empty_collections_fatal.1 [],
   c9_empty_collections_fatal.2.1 _ _ (by decide) rfl,
   c9_empty_collections_fatal.2.2.2.1 _ _ (by decide) (by decide),
   c9_empty_collections_fatal.2.2.2.2.1 ([], []) _ msgErrNotTypeSpec (by decide)⟩

end GrpcGen
